import Mathlib

/-!
Shallow embedding of the MinMax game engine and its three game variants
(`Connect4`, `TicTacToe`, `SticksGame`), translated from the C++ sources
(`src/Connect4.cpp` — which also carries `TicTacToe.cpp` and
`SticksGame.cpp` — together with the headers and `main.cpp`).

Modelling conventions:
* C++ `int` values (cell markers, players, scores, moves) are `Int`;
  array indices are `Fin`-valued after the bounds checks the C++ code does.
* The mutable game objects become immutable state values; `makeMove` and
  `undoMove` return the new state.  The C++ engine (`minMax`,
  `getBestMove`) mutates one shared object and restores it with `undoMove`
  after each recursive call; here the recursion passes the moved state,
  which coincides with the imperative behaviour whenever `undoMove`
  inverts `makeMove` (proved below for legal moves on well-formed states).
* Out-of-range board indexing is undefined behaviour in C++; the embedding
  makes such accesses inert (the state is returned unchanged, and a read
  out of range yields the empty marker).  All claims only exercise
  in-range indices.
-/

/-- Marker constant `Game::AI` from `Game.h`. -/
def AI : Int := -1

/-- Marker constant `Game::PLAYER` from `Game.h`. -/
def PLAYER : Int := 1

/-- Marker constant `Game::EMPTY` from `Game.h`. -/
def EMPTY : Int := 0

/-- The expression `(currentPlayer == PLAYER) ? AI : PLAYER` used by every
`makeMove`/`undoMove` implementation to switch turns. -/
def switchPlayer (p : Int) : Int := if p = PLAYER then AI else PLAYER

/-- Overwrite one board cell, leaving every other cell unchanged — the
effect of the C++ assignment `board[r][c] = v` on a 2-D array. -/
def setCell {m n : Nat} (b : Fin m → Fin n → Int) (r : Fin m) (c : Fin n) (v : Int) :
    Fin m → Fin n → Int :=
  fun r' c' => if r' = r ∧ c' = c then v else b r' c'

/-! ## Connect4 (`Connect4.h` / `Connect4.cpp`) -/

/-- `BOARD_LENGTH` from `Connect4.h`: number of columns. -/
def BOARD_LENGTH : Nat := 7

/-- `BOARD_HEIGHT` from `Connect4.h`: number of rows. -/
def BOARD_HEIGHT : Nat := 6

/-- State of the `Connect4` class: the 6×7 `board` array and
`currentPlayer`. -/
structure Connect4 where
  board : Fin 6 → Fin 7 → Int
  currentPlayer : Int

/-- Guarded read `board[r][c]` for `Int` indices: the C++ code only reads
cells after checking `0 <= r < 6` and `0 <= c < 7`, so the out-of-range
value is never observed; the embedding returns the empty marker there. -/
def getCell (b : Fin 6 → Fin 7 → Int) (r c : Int) : Int :=
  if h : 0 ≤ r ∧ r < 6 ∧ 0 ≤ c ∧ c < 7 then
    b ⟨r.toNat, by omega⟩ ⟨c.toNat, by omega⟩
  else EMPTY

namespace Connect4

/-- `Connect4::getAvailableMoves`: the columns whose top cell is empty, in
ascending column order. -/
def getAvailableMoves (g : Connect4) : List Int :=
  ((List.finRange 7).filter (fun col => g.board 0 col == EMPTY)).map
    (fun (col : Fin 7) => ((col : Nat) : Int))

/-- `Connect4::makeMove`: scan rows from the bottom (`row = 5`) upwards and
drop the current player's marker into the first empty cell of `col`, then
switch turns; if the column is full the loop falls through and nothing
changes. -/
def makeMove (col : Int) (g : Connect4) : Connect4 :=
  if h : 0 ≤ col ∧ col < 7 then
    match (List.finRange 6).reverse.find?
        (fun row => g.board row ⟨col.toNat, by omega⟩ == EMPTY) with
    | some row =>
        ⟨setCell g.board row ⟨col.toNat, by omega⟩ g.currentPlayer,
          switchPlayer g.currentPlayer⟩
    | none => g
  else g

/-- `Connect4::undoMove`: scan rows from the top downwards, clear the first
occupied cell of `col` and switch turns back; nothing changes if the column
is empty. -/
def undoMove (col : Int) (g : Connect4) : Connect4 :=
  if h : 0 ≤ col ∧ col < 7 then
    match (List.finRange 6).find?
        (fun row => g.board row ⟨col.toNat, by omega⟩ != EMPTY) with
    | some row =>
        ⟨setCell g.board row ⟨col.toNat, by omega⟩ EMPTY,
          switchPlayer g.currentPlayer⟩
    | none => g
  else g

/-- The direction table `{{0, 1}, {1, 0}, {1, 1}, {-1, 1}}` of
`Connect4::getWinner`. -/
def directions : List (Int × Int) := [(0, 1), (1, 0), (1, 1), (-1, 1)]

/-- One iteration of the direction loop in `Connect4::getWinner`: starting
from a non-empty cell `(r, c)`, the inner `k`-loop checks the next three
cells in direction `d`; `count == 4` holds exactly when all three are in
bounds and carry the same marker. -/
def runAt (b : Fin 6 → Fin 7 → Int) (r : Fin 6) (c : Fin 7) (d : Int × Int) : Bool :=
  (b r c != 0) &&
    (List.range 3).all (fun k =>
      let nr : Int := (r : Int) + ((k : Int) + 1) * d.1
      let nc : Int := (c : Int) + ((k : Int) + 1) * d.2
      decide (0 ≤ nr) && decide (nr < 6) && decide (0 ≤ nc) && decide (nc < 7) &&
        (getCell b nr nc == b r c))

/-- The iteration order of `Connect4::getWinner`: rows, then columns, then
the four directions. -/
def scanOrder : List (Fin 6 × Fin 7 × (Int × Int)) :=
  (List.finRange 6).flatMap (fun r =>
    (List.finRange 7).flatMap (fun c =>
      directions.map (fun d => (r, c, d))))

/-- `Connect4::getWinner`: return the marker of the first cell (in scan
order) that starts a run of four, or `0` when no such run exists. -/
def getWinner (g : Connect4) : Int :=
  match scanOrder.find? (fun t => runAt g.board t.1 t.2.1 t.2.2) with
  | some t => g.board t.1 t.2.1
  | none => 0

/-- `Connect4::evaluate`: `10` for an AI win, `-10` for a player win, `0`
otherwise. -/
def evaluate (g : Connect4) : Int :=
  if g.getWinner = AI then 10 else if g.getWinner = PLAYER then -10 else 0

/-- `Connect4::isTerminal`: a winner exists or no moves remain. -/
def isTerminal (g : Connect4) : Bool :=
  (g.getWinner != 0) || g.getAvailableMoves.isEmpty

/-- `Connect4::checkInput`: the column exists and is not full. -/
def checkInput (g : Connect4) (col : Int) : Bool :=
  decide (0 ≤ col) && decide (col < 7) && (getCell g.board 0 col == EMPTY)

end Connect4

/-! ## TicTacToe (`TicTacToe.h` / `TicTacToe.cpp`) -/

/-- `BOARD_SIZE` from `TicTacToe.h`. -/
def BOARD_SIZE : Nat := 3

/-- State of the `TicTacToe` class: the 3×3 `board` array and
`currentPlayer`. -/
structure TicTacToe where
  board : Fin 3 → Fin 3 → Int
  currentPlayer : Int

namespace TicTacToe

/-- Guarded read `board[cellIndex / 3][cellIndex % 3]`; the C++ code only
performs it after checking `0 <= cellIndex < 9`. -/
def cellOf (g : TicTacToe) (m : Int) : Int :=
  if h : 0 ≤ m ∧ m < 9 then
    g.board ⟨m.toNat / 3, by omega⟩ ⟨m.toNat % 3, by omega⟩
  else EMPTY

/-- `TicTacToe::getAvailableMoves`: indices `i * 3 + j` of the empty cells,
in row-major order. -/
def getAvailableMoves (g : TicTacToe) : List Int :=
  (List.finRange 3).flatMap (fun i =>
    ((List.finRange 3).filter (fun j => g.board i j == EMPTY)).map
      (fun (j : Fin 3) => (((i : Nat) * 3 + (j : Nat) : Nat) : Int)))

/-- `TicTacToe::makeMove`: when `cellIndex` is in range and names an empty
cell, place the current player's marker there and switch turns; otherwise
do nothing. -/
def makeMove (m : Int) (g : TicTacToe) : TicTacToe :=
  if h : 0 ≤ m ∧ m < 9 then
    if g.board ⟨m.toNat / 3, by omega⟩ ⟨m.toNat % 3, by omega⟩ = EMPTY then
      ⟨setCell g.board ⟨m.toNat / 3, by omega⟩ ⟨m.toNat % 3, by omega⟩ g.currentPlayer,
        switchPlayer g.currentPlayer⟩
    else g
  else g

/-- `TicTacToe::undoMove`: when `cellIndex` is in range and names a
non-empty cell, clear it and switch turns back; otherwise do nothing. -/
def undoMove (m : Int) (g : TicTacToe) : TicTacToe :=
  if h : 0 ≤ m ∧ m < 9 then
    if g.board ⟨m.toNat / 3, by omega⟩ ⟨m.toNat % 3, by omega⟩ = EMPTY then g
    else
      ⟨setCell g.board ⟨m.toNat / 3, by omega⟩ ⟨m.toNat % 3, by omega⟩ EMPTY,
        switchPlayer g.currentPlayer⟩
  else g

/-- `TicTacToe::getWinner`: check the three rows, then the three columns,
then the two diagonals for three equal non-empty markers; `0` otherwise. -/
def getWinner (g : TicTacToe) : Int :=
  match (List.finRange 3).find? (fun i =>
      (g.board i 0 != EMPTY) && (g.board i 0 == g.board i 1) &&
        (g.board i 1 == g.board i 2)) with
  | some i => g.board i 0
  | none =>
    match (List.finRange 3).find? (fun j =>
        (g.board 0 j != EMPTY) && (g.board 0 j == g.board 1 j) &&
          (g.board 1 j == g.board 2 j)) with
    | some j => g.board 0 j
    | none =>
      if (g.board 0 0 != EMPTY) && (g.board 0 0 == g.board 1 1) &&
          (g.board 1 1 == g.board 2 2) then g.board 0 0
      else if (g.board 0 2 != EMPTY) && (g.board 0 2 == g.board 1 1) &&
          (g.board 1 1 == g.board 2 0) then g.board 0 2
      else 0

/-- `TicTacToe::evaluate`: `10` for an AI win, `-10` for a player win, `0`
otherwise. -/
def evaluate (g : TicTacToe) : Int :=
  if g.getWinner = AI then 10 else if g.getWinner = PLAYER then -10 else 0

/-- `TicTacToe::isTerminal`: a winner exists or no moves remain. -/
def isTerminal (g : TicTacToe) : Bool :=
  (g.getWinner != 0) || g.getAvailableMoves.isEmpty

/-- `TicTacToe::checkInput`: the index is in range and the cell is empty. -/
def checkInput (g : TicTacToe) (input : Int) : Bool :=
  if h : 0 ≤ input ∧ input < 9 then
    g.board ⟨input.toNat / 3, by omega⟩ ⟨input.toNat % 3, by omega⟩ == EMPTY
  else false

end TicTacToe

/-! ## SticksGame (`SticksGame.h` / `SticksGame.cpp`) -/

/-- `STICKS_NUMBER` from `SticksGame.h`. -/
def STICKS_NUMBER : Int := 21

/-- State of the `SticksGame` class: `currentPlayer` and
`remainingSticks`. -/
structure SticksGame where
  currentPlayer : Int
  remainingSticks : Int

namespace SticksGame

/-- `SticksGame::isTerminal`: no sticks remain. -/
def isTerminal (g : SticksGame) : Bool :=
  decide (g.remainingSticks ≤ 0)

/-- `SticksGame::getAvailableMoves`: the loop
`for (numSticks = 1; numSticks <= 3 && numSticks <= remainingSticks; ...)`
collects `1, 2, 3` while each is at most `remainingSticks`. -/
def getAvailableMoves (g : SticksGame) : List Int :=
  ([1, 2, 3] : List Int).takeWhile (fun n => decide (n ≤ g.remainingSticks))

/-- `SticksGame::makeMove`: subtract unconditionally and switch turns. -/
def makeMove (n : Int) (g : SticksGame) : SticksGame :=
  ⟨switchPlayer g.currentPlayer, g.remainingSticks - n⟩

/-- `SticksGame::undoMove`: add the sticks back and switch turns back. -/
def undoMove (n : Int) (g : SticksGame) : SticksGame :=
  ⟨switchPlayer g.currentPlayer, g.remainingSticks + n⟩

/-- `SticksGame::evaluate`: at `remainingSticks == 0`, `-10` when the
player is to move and `10` otherwise; `0` elsewhere. -/
def evaluate (g : SticksGame) : Int :=
  if g.remainingSticks = 0 then (if g.currentPlayer = PLAYER then -10 else 10)
  else 0

/-- `SticksGame::getWinner`: at `remainingSticks == 0`, the side to move is
declared the winner (`PLAYER` when `currentPlayer == PLAYER`, else `AI`);
`0` elsewhere. -/
def getWinner (g : SticksGame) : Int :=
  if g.remainingSticks = 0 then (if g.currentPlayer = PLAYER then PLAYER else AI)
  else 0

/-- `SticksGame::checkInput`: between 1 and 3 sticks, and no more than
remain. -/
def checkInput (g : SticksGame) (input : Int) : Bool :=
  decide (1 ≤ input) && decide (input ≤ 3) && decide (input ≤ g.remainingSticks)

end SticksGame

/-! ## The engine (`main.cpp`)

`minMax` and `getBestMove` are written against the abstract `Game`
interface; the embedding packages the virtual methods a game provides into
a `GameI` record.  The per-variant depth limit that `minMax` computes with
`dynamic_cast<Connect4*>` (6 for `Connect4`, the initial `999999`
otherwise) is carried as the `maxDepth` field of the record. -/

structure GameI (σ : Type) where
  isTerminal : σ → Bool
  getAvailableMoves : σ → List Int
  makeMove : Int → σ → σ
  undoMove : Int → σ → σ
  evaluate : σ → Int
  maxDepth : Nat

/-- `std::numeric_limits<int>::min()`. -/
def intMin : Int := -2147483648

/-- `std::numeric_limits<int>::max()`. -/
def intMax : Int := 2147483647

/-- Recursion core of `minMax`, structured on the remaining depth budget
`maxDepth - depth` (the C++ recursion stops as soon as
`depth >= maxDepth || game.isTerminal()`): fold the recursive scores of all
available moves with `max`/`min`, seeded from `INT_MIN`/`INT_MAX`. -/
def minMaxAux {σ : Type} (g : GameI σ) : Nat → σ → Bool → Int
  | 0, s, _ => g.evaluate s
  | fuel + 1, s, isMaximizing =>
    if g.isTerminal s then g.evaluate s
    else
      (g.getAvailableMoves s).foldl
        (fun bestScore move =>
          let score := minMaxAux g fuel (g.makeMove move s) (!isMaximizing)
          if isMaximizing then max bestScore score else min bestScore score)
        (if isMaximizing then intMin else intMax)

/-- `minMax(game, depth, isMaximizing)` from `main.cpp`. -/
def minMax {σ : Type} (g : GameI σ) (s : σ) (depth : Nat) (isMaximizing : Bool) : Int :=
  minMaxAux g (g.maxDepth - depth) s isMaximizing

/-- Loop body of `getBestMove`: keep `(bestScore, bestMove)`, replacing it
only when the new score is strictly greater. -/
def bestStep (f : Int → Int) : Int × Int → Int → Int × Int :=
  fun best move =>
    let score := f move
    if score > best.1 then (score, move) else best

/-- `getBestMove(game)` from `main.cpp`: try every available move, score it
with `minMax(game, 0, false)` after applying it, and return the move of the
best strictly-improving score (initially `bestScore = INT_MIN`,
`bestMove = -1`). -/
def getBestMove {σ : Type} (g : GameI σ) (s : σ) : Int :=
  ((g.getAvailableMoves s).foldl
    (bestStep (fun move => minMax g (g.makeMove move s) 0 false))
    (intMin, -1)).2

/-- The `Connect4` instance handed to the engine (`dynamic_cast` sets
`maxDepth = 6`). -/
def connect4Game : GameI Connect4 :=
  ⟨Connect4.isTerminal, Connect4.getAvailableMoves, Connect4.makeMove,
    Connect4.undoMove, Connect4.evaluate, 6⟩

/-- The `TicTacToe` instance handed to the engine (`maxDepth` stays at the
initial `999999`). -/
def ticTacToeGame : GameI TicTacToe :=
  ⟨TicTacToe.isTerminal, TicTacToe.getAvailableMoves, TicTacToe.makeMove,
    TicTacToe.undoMove, TicTacToe.evaluate, 999999⟩

/-- The `SticksGame` instance handed to the engine (`maxDepth` stays at the
initial `999999`). -/
def sticksGame : GameI SticksGame :=
  ⟨SticksGame.isTerminal, SticksGame.getAvailableMoves, SticksGame.makeMove,
    SticksGame.undoMove, SticksGame.evaluate, 999999⟩

/-! ## Well-formedness predicates

Reachable states of the actual games only ever hold the three markers on
the board and one of the two sides in `currentPlayer`; several claims
quantify over "reachable" states, which the theorems relax to these
predicates. -/

/-- A player value actually used by the games. -/
def validPlayer (p : Int) : Prop := p = PLAYER ∨ p = AI

/-- Every Connect4 cell holds one of the three markers. -/
def validBoardC4 (b : Fin 6 → Fin 7 → Int) : Prop :=
  ∀ r c, b r c = PLAYER ∨ b r c = EMPTY ∨ b r c = AI

/-- Every TicTacToe cell holds one of the three markers. -/
def validBoardTTT (b : Fin 3 → Fin 3 → Int) : Prop :=
  ∀ r c, b r c = PLAYER ∨ b r c = EMPTY ∨ b r c = AI

instance (p : Int) : Decidable (validPlayer p) :=
  decidable_of_iff (p = PLAYER ∨ p = AI) Iff.rfl

instance (b : Fin 6 → Fin 7 → Int) : Decidable (validBoardC4 b) :=
  decidable_of_iff (∀ r c, b r c = PLAYER ∨ b r c = EMPTY ∨ b r c = AI) Iff.rfl

instance (b : Fin 3 → Fin 3 → Int) : Decidable (validBoardTTT b) :=
  decidable_of_iff (∀ r c, b r c = PLAYER ∨ b r c = EMPTY ∨ b r c = AI) Iff.rfl

/-- The gravity invariant of reachable Connect4 boards: in every column the
occupied cells form a suffix of the rows (everything below an occupied cell
is occupied). -/
def gravityC4 (g : Connect4) : Prop :=
  ∀ (c : Fin 7) (r r' : Fin 6), r ≤ r' → g.board r c ≠ EMPTY → g.board r' c ≠ EMPTY

instance (g : Connect4) : Decidable (gravityC4 g) :=
  decidable_of_iff
    (∀ (c : Fin 7) (r r' : Fin 6), r ≤ r' → g.board r c ≠ EMPTY → g.board r' c ≠ EMPTY)
    Iff.rfl

/-! ## Concrete states used by the example parts of the claims -/

/-- The all-empty Connect4 board. -/
def emptyC4Board : Fin 6 → Fin 7 → Int := fun _ _ => EMPTY

/-- The initial Connect4 state with the player starting. -/
def initialC4 : Connect4 := ⟨emptyC4Board, PLAYER⟩

/-- A Connect4 board whose column 0 is completely full. -/
def fullColBoard : Fin 6 → Fin 7 → Int := fun _ c => if c = 0 then PLAYER else EMPTY

/-- A Connect4 board with player markers at (5,0), (5,1), (5,2), (5,3). -/
def bottomRowBoard : Fin 6 → Fin 7 → Int :=
  fun r c => if r = 5 ∧ (c : Nat) < 4 then PLAYER else EMPTY

/-- The all-empty TicTacToe board. -/
def emptyTTTBoard : Fin 3 → Fin 3 → Int := fun _ _ => EMPTY

/-- A TicTacToe board whose top row is three player marks. -/
def topRowBoard : Fin 3 → Fin 3 → Int := fun i _ => if i = 0 then PLAYER else EMPTY

/-- A full TicTacToe board with no three-in-a-row (a draw). -/
def drawBoard : Fin 3 → Fin 3 → Int :=
  fun i j => if i = 1 then (if j = 2 then PLAYER else AI) else (if j = 2 then AI else PLAYER)

/-- A winning line of marker `m` on a TicTacToe board: one of the three
rows, three columns, or two diagonals holds three equal non-empty
markers `m`. -/
def ttLine (g : TicTacToe) (m : Int) : Prop :=
  m ≠ EMPTY ∧
    ((∃ i, g.board i 0 = m ∧ g.board i 1 = m ∧ g.board i 2 = m) ∨
     (∃ j, g.board 0 j = m ∧ g.board 1 j = m ∧ g.board 2 j = m) ∨
     (g.board 0 0 = m ∧ g.board 1 1 = m ∧ g.board 2 2 = m) ∨
     (g.board 0 2 = m ∧ g.board 1 1 = m ∧ g.board 2 0 = m))

instance (g : TicTacToe) (m : Int) : Decidable (ttLine g m) :=
  decidable_of_iff (m ≠ EMPTY ∧
    ((∃ i, g.board i 0 = m ∧ g.board i 1 = m ∧ g.board i 2 = m) ∨
     (∃ j, g.board 0 j = m ∧ g.board 1 j = m ∧ g.board 2 j = m) ∨
     (g.board 0 0 = m ∧ g.board 1 1 = m ∧ g.board 2 2 = m) ∨
     (g.board 0 2 = m ∧ g.board 1 1 = m ∧ g.board 2 0 = m))) Iff.rfl

/-! ## Helper lemmas -/

lemma switchPlayer_switchPlayer {p : Int} (h : validPlayer p) :
    switchPlayer (switchPlayer p) = p := by
  rcases h with h | h <;> simp [switchPlayer, h, PLAYER, AI]

lemma switchPlayer_ne_zero (p : Int) : switchPlayer p ≠ 0 := by
  unfold switchPlayer PLAYER AI; split <;> omega

lemma validPlayer_ne_zero {p : Int} (h : validPlayer p) : p ≠ 0 := by
  rcases h with h | h <;> simp [h, PLAYER, AI]

/-- Characterisation of the bottom-up row scan of `Connect4::makeMove`. -/
lemma reverseFind_eq_some_iff : ∀ (p : Fin 6 → Bool) (r : Fin 6),
    ((List.finRange 6).reverse.find? p = some r ↔
      (p r = true ∧ ∀ r', r < r' → p r' = false)) := by decide

lemma reverseFind_eq_none_iff : ∀ p : Fin 6 → Bool,
    ((List.finRange 6).reverse.find? p = none ↔ ∀ r, p r = false) := by decide

/-- Characterisation of the top-down row scan of `Connect4::undoMove`. -/
lemma find_eq_some_iff_fin6 : ∀ (p : Fin 6 → Bool) (r : Fin 6),
    ((List.finRange 6).find? p = some r ↔
      (p r = true ∧ ∀ r', r' < r → p r' = false)) := by decide

lemma find_eq_none_iff_fin6 : ∀ p : Fin 6 → Bool,
    ((List.finRange 6).find? p = none ↔ ∀ r, p r = false) := by decide

/-- Membership in `Connect4::getAvailableMoves`. -/
lemma c4_mem_getAvailableMoves (g : Connect4) (m : Int) :
    m ∈ g.getAvailableMoves ↔ ∃ col : Fin 7, ((col : Nat) : Int) = m ∧ g.board 0 col = EMPTY := by
  unfold Connect4.getAvailableMoves
  rw [List.mem_map]
  constructor
  · rintro ⟨col, hmem, rfl⟩
    rw [List.mem_filter] at hmem
    exact ⟨col, rfl, by simpa using hmem.2⟩
  · rintro ⟨col, rfl, hc⟩
    exact ⟨col, List.mem_filter.mpr ⟨List.mem_finRange col, by simpa using hc⟩, rfl⟩

/-- Membership in `TicTacToe::getAvailableMoves`. -/
lemma ttt_mem_getAvailableMoves (g : TicTacToe) (m : Int) :
    m ∈ g.getAvailableMoves ↔
      ∃ (i j : Fin 3), (((i : Nat) * 3 + (j : Nat) : Nat) : Int) = m ∧ g.board i j = EMPTY := by
  unfold TicTacToe.getAvailableMoves
  rw [List.mem_flatMap]
  constructor
  · rintro ⟨i, hi, hmem⟩
    rw [List.mem_map] at hmem
    obtain ⟨j, hj, rfl⟩ := hmem
    rw [List.mem_filter] at hj
    exact ⟨i, j, rfl, by simpa using hj.2⟩
  · rintro ⟨i, j, rfl, hj⟩
    refine ⟨i, List.mem_finRange i, ?_⟩
    rw [List.mem_map]
    exact ⟨j, List.mem_filter.mpr ⟨List.mem_finRange j, by simpa using hj⟩, rfl⟩

/-- Membership in `SticksGame::getAvailableMoves`. -/
lemma sticks_mem_getAvailableMoves (g : SticksGame) (m : Int) :
    m ∈ g.getAvailableMoves ↔ 1 ≤ m ∧ m ≤ 3 ∧ m ≤ g.remainingSticks := by
  unfold SticksGame.getAvailableMoves
  by_cases h1 : (1 : Int) ≤ g.remainingSticks
  · by_cases h2 : (2 : Int) ≤ g.remainingSticks
    · by_cases h3 : (3 : Int) ≤ g.remainingSticks
      · simp [List.takeWhile, h1, h2, h3]
        omega
      · simp [List.takeWhile, h1, h2, h3]
        omega
    · have h3 : ¬ (3 : Int) ≤ g.remainingSticks := by omega
      simp [List.takeWhile, h1, h2, h3]
      omega
  · have h2 : ¬ (2 : Int) ≤ g.remainingSticks := by omega
    simp [List.takeWhile, h1, h2]
    omega

/-- Reduce a guarded `getCell` read whose indices are in range. -/
lemma getCell_eq (b : Fin 6 → Fin 7 → Int) (r c : Int)
    (hr : 0 ≤ r ∧ r < 6) (hc : 0 ≤ c ∧ c < 7) :
    getCell b r c = b ⟨r.toNat, by omega⟩ ⟨c.toNat, by omega⟩ :=
  dif_pos ⟨hr.1, hr.2, hc.1, hc.2⟩

/-- `Connect4::getWinner` only ever reports a marker present on a valid
board (or `0`). -/
lemma c4_getWinner_valid (g : Connect4) (hb : validBoardC4 g.board) :
    g.getWinner = PLAYER ∨ g.getWinner = EMPTY ∨ g.getWinner = AI := by
  unfold Connect4.getWinner
  rcases hfind : Connect4.scanOrder.find?
      (fun t => Connect4.runAt g.board t.1 t.2.1 t.2.2) with _ | t
  · rw [hfind]
    simp [EMPTY]
  · rw [hfind]
    simpa using hb t.1 t.2.1

/-- `TicTacToe::getWinner` only ever reports a marker present on a valid
board (or `0`). -/
lemma ttt_getWinner_valid (g : TicTacToe) (hb : validBoardTTT g.board) :
    g.getWinner = PLAYER ∨ g.getWinner = EMPTY ∨ g.getWinner = AI := by
  unfold TicTacToe.getWinner
  rcases hr : (List.finRange 3).find? (fun i =>
      (g.board i 0 != EMPTY) && (g.board i 0 == g.board i 1) &&
        (g.board i 1 == g.board i 2)) with _ | i
  · rcases hc : (List.finRange 3).find? (fun j =>
        (g.board 0 j != EMPTY) && (g.board 0 j == g.board 1 j) &&
          (g.board 1 j == g.board 2 j)) with _ | j
    · have h00 := hb 0 0
      have h02 := hb 0 2
      split_ifs <;> simp [EMPTY] <;> tauto
    · simpa using hb 0 j
  · simpa using hb i 0

/-- C1 counterexample: the claim asserts that at `remainingSticks == 0`
`getWinner()` returns `AI` when `currentPlayer == PLAYER`, and that the
scenario `remainingSticks = 3`, AI to move, `makeMove(3)` yields winner
`AI`.  The code (`SticksGame::getWinner`) returns
`(currentPlayer == PLAYER) ? PLAYER : AI`, so that very scenario ends with
`remainingSticks = 0`, `currentPlayer = PLAYER`, and winner `PLAYER`,
not `AI`. -/
theorem claim1_sticks_winner_counterexample :
    (SticksGame.makeMove 3 ⟨AI, 3⟩).remainingSticks = 0 ∧
    (SticksGame.makeMove 3 ⟨AI, 3⟩).currentPlayer = PLAYER ∧
    SticksGame.getWinner (SticksGame.makeMove 3 ⟨AI, 3⟩) = PLAYER ∧
    SticksGame.getWinner (SticksGame.makeMove 3 ⟨AI, 3⟩) ≠ AI := by
  decide

/-- C1 (amended): in every state with `remainingSticks == 0`, `getWinner()`
returns `PLAYER` when `currentPlayer == PLAYER` and `AI` otherwise (the
side to move at the exhausted state is declared the winner, i.e. the last
mover loses); in particular, starting from `remainingSticks = 3` with AI to
move, after `makeMove(3)` the state has `remainingSticks = 0` and
`getWinner()` equals `PLAYER`. -/
theorem claim1_sticks_winner_amended :
    (∀ g : SticksGame, g.remainingSticks = 0 →
      SticksGame.getWinner g = (if g.currentPlayer = PLAYER then PLAYER else AI)) ∧
    ((SticksGame.makeMove 3 ⟨AI, 3⟩).remainingSticks = 0 ∧
      SticksGame.getWinner (SticksGame.makeMove 3 ⟨AI, 3⟩) = PLAYER) := by
  refine ⟨fun g h => ?_, by decide, by decide⟩
  simp [SticksGame.getWinner, h]

/-- Witness for the amended C1 at the concrete zero state. -/
theorem claim1_sticks_winner_amended_witness :
    (SticksGame.mk PLAYER 0).remainingSticks = 0 ∧
    SticksGame.getWinner (SticksGame.mk PLAYER 0) =
      (if (SticksGame.mk PLAYER 0).currentPlayer = PLAYER then PLAYER else AI) :=
  ⟨rfl, claim1_sticks_winner_amended.1 (SticksGame.mk PLAYER 0) rfl⟩

/-- C5: at every terminal state of every variant (with the board holding
only genuine markers, as every reachable board does), `evaluate()` returns
`+10` iff `getWinner()` is `AI`, `-10` iff it is `PLAYER`, and `0` iff it
is `0`. -/
theorem claim5_evaluate_winner_consistency :
    (∀ g : Connect4, validBoardC4 g.board → g.isTerminal = true →
      ((g.evaluate = 10 ↔ g.getWinner = AI) ∧ (g.evaluate = -10 ↔ g.getWinner = PLAYER) ∧
        (g.evaluate = 0 ↔ g.getWinner = 0))) ∧
    (∀ g : TicTacToe, validBoardTTT g.board → g.isTerminal = true →
      ((g.evaluate = 10 ↔ g.getWinner = AI) ∧ (g.evaluate = -10 ↔ g.getWinner = PLAYER) ∧
        (g.evaluate = 0 ↔ g.getWinner = 0))) ∧
    (∀ g : SticksGame, g.isTerminal = true →
      ((g.evaluate = 10 ↔ g.getWinner = AI) ∧ (g.evaluate = -10 ↔ g.getWinner = PLAYER) ∧
        (g.evaluate = 0 ↔ g.getWinner = 0))) := by
  refine ⟨fun g hb _ => ?_, fun g hb _ => ?_, fun g _ => ?_⟩
  · have hv := c4_getWinner_valid g hb
    unfold Connect4.evaluate
    rcases hv with h | h | h <;> simp [h, AI, PLAYER, EMPTY]
  · have hv := ttt_getWinner_valid g hb
    unfold TicTacToe.evaluate
    rcases hv with h | h | h <;> simp [h, AI, PLAYER, EMPTY]
  · unfold SticksGame.evaluate SticksGame.getWinner
    split_ifs <;> norm_num [AI, PLAYER, EMPTY]

/-- Witness for C5 at concrete terminal states: a won Connect4 board, a
won TicTacToe board, and an exhausted sticks state. -/
theorem claim5_evaluate_winner_consistency_witness :
    (validBoardC4 (bottomRowBoard) ∧
      Connect4.isTerminal ⟨bottomRowBoard, AI⟩ = true ∧
      (Connect4.evaluate ⟨bottomRowBoard, AI⟩ = -10 ↔
        Connect4.getWinner ⟨bottomRowBoard, AI⟩ = PLAYER)) ∧
    (validBoardTTT (topRowBoard) ∧
      TicTacToe.isTerminal ⟨topRowBoard, AI⟩ = true ∧
      (TicTacToe.evaluate ⟨topRowBoard, AI⟩ = -10 ↔
        TicTacToe.getWinner ⟨topRowBoard, AI⟩ = PLAYER)) ∧
    (SticksGame.isTerminal ⟨PLAYER, 0⟩ = true ∧
      (SticksGame.evaluate ⟨PLAYER, 0⟩ = -10 ↔ SticksGame.getWinner ⟨PLAYER, 0⟩ = PLAYER)) :=
  ⟨⟨by decide, by decide,
      (claim5_evaluate_winner_consistency.1 _ (by decide) (by decide)).2.1⟩,
    ⟨by decide, by decide,
      (claim5_evaluate_winner_consistency.2.1 _ (by decide) (by decide)).2.1⟩,
    ⟨by decide, (claim5_evaluate_winner_consistency.2.2 _ (by decide)).2.1⟩⟩

/-- C6: for every variant and every state, `checkInput(m)` accepts exactly
the members of `getAvailableMoves()`, including out-of-range inputs. -/
theorem claim6_checkInput_agrees_availableMoves :
    (∀ (g : Connect4) (m : Int), g.checkInput m = true ↔ m ∈ g.getAvailableMoves) ∧
    (∀ (g : TicTacToe) (m : Int), g.checkInput m = true ↔ m ∈ g.getAvailableMoves) ∧
    (∀ (g : SticksGame) (m : Int), g.checkInput m = true ↔ m ∈ g.getAvailableMoves) := by
  refine ⟨fun g m => ?_, fun g m => ?_, fun g m => ?_⟩
  · rw [c4_mem_getAvailableMoves]
    unfold Connect4.checkInput
    simp only [Bool.and_eq_true, decide_eq_true_eq, beq_iff_eq]
    constructor
    · rintro ⟨⟨h0, h7⟩, hc⟩
      rw [getCell_eq g.board 0 m (by omega) ⟨h0, h7⟩] at hc
      refine ⟨⟨m.toNat, by omega⟩, by simp [Int.toNat_of_nonneg h0], ?_⟩
      convert hc using 2
    · rintro ⟨col, rfl, hc⟩
      have h0 : (0 : Int) ≤ ((col : Nat) : Int) := by positivity
      have h7 : ((col : Nat) : Int) < 7 := by exact_mod_cast col.isLt
      refine ⟨⟨h0, h7⟩, ?_⟩
      rw [getCell_eq g.board 0 _ (by omega) ⟨h0, h7⟩]
      convert hc using 2
  · rw [ttt_mem_getAvailableMoves]
    unfold TicTacToe.checkInput
    by_cases h : 0 ≤ m ∧ m < 9
    · rw [dif_pos h]
      simp only [beq_iff_eq]
      constructor
      · intro hc
        exact ⟨⟨m.toNat / 3, by omega⟩, ⟨m.toNat % 3, by omega⟩, by simp; omega, hc⟩
      · rintro ⟨i, j, hm, hc⟩
        have hi := i.isLt
        have hj := j.isLt
        convert hc using 2
        · exact Fin.ext (by simp; omega)
        · exact Fin.ext (by simp; omega)
    · rw [dif_neg h]
      simp only [Bool.false_eq_true, false_iff]
      rintro ⟨i, j, hm, hc⟩
      have hi := i.isLt
      have hj := j.isLt
      exact h (by constructor <;> omega)
  · unfold SticksGame.checkInput
    rw [sticks_mem_getAvailableMoves]
    simp only [Bool.and_eq_true, decide_eq_true_eq]
    tauto

/-- C10: `TicTacToe::makeMove` is a complete no-op (board and turn) unless
the index is in `0..8` and names an empty cell; `Connect4::makeMove` on an
in-range but full column is likewise a no-op; `SticksGame::makeMove`
checks nothing — it always subtracts and always flips the turn. -/
theorem claim10_illegal_move_noop :
    (∀ (g : TicTacToe) (m : Int), ¬ (0 ≤ m ∧ m < 9 ∧ g.cellOf m = EMPTY) →
      TicTacToe.makeMove m g = g) ∧
    (∀ (g : Connect4) (c : Fin 7), (∀ r, g.board r c ≠ EMPTY) →
      Connect4.makeMove ((c : Nat) : Int) g = g) ∧
    (∀ (g : SticksGame) (n : Int),
      (SticksGame.makeMove n g).remainingSticks = g.remainingSticks - n ∧
      (SticksGame.makeMove n g).currentPlayer = switchPlayer g.currentPlayer) := by
  refine ⟨fun g m hm => ?_, fun g c hc => ?_, fun g n => ⟨rfl, rfl⟩⟩
  · unfold TicTacToe.makeMove
    by_cases h : 0 ≤ m ∧ m < 9
    · rw [dif_pos h]
      have : ¬ g.board ⟨m.toNat / 3, by omega⟩ ⟨m.toNat % 3, by omega⟩ = EMPTY := by
        intro hcell
        exact hm ⟨h.1, h.2, by rw [TicTacToe.cellOf, dif_pos h]; exact hcell⟩
      rw [if_neg this]
    · rw [dif_neg h]
  · have h0 : (0 : Int) ≤ ((c : Nat) : Int) := by positivity
    have h7 : ((c : Nat) : Int) < 7 := by exact_mod_cast c.isLt
    unfold Connect4.makeMove
    rw [dif_pos ⟨h0, h7⟩]
    have hfin : (⟨(((c : Nat) : Int)).toNat, by omega⟩ : Fin 7) = c := Fin.ext (by simp)
    rw [hfin]
    have hnone : (List.finRange 6).reverse.find? (fun row => g.board row c == EMPTY) = none :=
      (reverseFind_eq_none_iff _).mpr fun r => beq_eq_false_iff_ne.mpr (hc r)
    rw [hnone]

/-- Witness for C10: an out-of-range TicTacToe move and a full Connect4
column are rejected without changing the state. -/
theorem claim10_illegal_move_noop_witness :
    (¬ (0 ≤ (9 : Int) ∧ (9 : Int) < 9 ∧
        TicTacToe.cellOf ⟨emptyTTTBoard, PLAYER⟩ 9 = EMPTY) ∧
      TicTacToe.makeMove 9 ⟨emptyTTTBoard, PLAYER⟩ = ⟨emptyTTTBoard, PLAYER⟩) ∧
    ((∀ r : Fin 6, fullColBoard r 0 ≠ EMPTY) ∧
      Connect4.makeMove ((((0 : Fin 7) : Nat)) : Int) ⟨fullColBoard, PLAYER⟩ =
        ⟨fullColBoard, PLAYER⟩) :=
  ⟨⟨by decide, claim10_illegal_move_noop.1 ⟨emptyTTTBoard, PLAYER⟩ 9 (by decide)⟩,
    ⟨by decide, claim10_illegal_move_noop.2.1 ⟨fullColBoard, PLAYER⟩ 0 (by decide)⟩⟩

/-- `Connect4::makeMove` on a column with an empty cell drops the marker
into the lowest (largest-index) empty row of that column and switches the
turn. -/
lemma Connect4.makeMove_drop (g : Connect4) (c : Fin 7)
    (hex : ∃ r, g.board r c = EMPTY) :
    ∃ r₀ : Fin 6, g.board r₀ c = EMPTY ∧ (∀ r', r₀ < r' → g.board r' c ≠ EMPTY) ∧
      Connect4.makeMove ((c : Nat) : Int) g =
        ⟨setCell g.board r₀ c g.currentPlayer, switchPlayer g.currentPlayer⟩ := by
  have h0 : (0 : Int) ≤ ((c : Nat) : Int) := by positivity
  have h7 : ((c : Nat) : Int) < 7 := by exact_mod_cast c.isLt
  have hfin : (⟨(((c : Nat) : Int)).toNat, by omega⟩ : Fin 7) = c := Fin.ext (by simp)
  obtain ⟨r, hr⟩ := hex
  rcases hfind : (List.finRange 6).reverse.find?
      (fun row => g.board row c == EMPTY) with _ | r₀
  · exact absurd (beq_iff_eq.mpr hr)
      (by simpa using (reverseFind_eq_none_iff _).mp hfind r)
  · obtain ⟨hp, hmax⟩ := (reverseFind_eq_some_iff _ r₀).mp hfind
    refine ⟨r₀, by simpa using hp, fun r' hlt => by simpa using hmax r' hlt, ?_⟩
    unfold Connect4.makeMove
    rw [dif_pos ⟨h0, h7⟩, hfin, hfind]

/-- C7: `Connect4::makeMove` on a non-full column places the current
player's marker in the lowest empty row of that column (the largest empty
row index) and flips the turn; `getAvailableMoves` lists exactly the
columns with an empty top cell, in ascending order; consequently six moves
into column 0 of the empty board fill it from the bottom row upward, after
which the column is no longer available. -/
theorem claim7_connect4_gravity :
    (∀ (g : Connect4) (c : Fin 7), (∃ r, g.board r c = EMPTY) →
      ∃ r₀ : Fin 6, g.board r₀ c = EMPTY ∧ (∀ r', r₀ < r' → g.board r' c ≠ EMPTY) ∧
        Connect4.makeMove ((c : Nat) : Int) g =
          ⟨setCell g.board r₀ c g.currentPlayer, switchPlayer g.currentPlayer⟩) ∧
    (∀ g : Connect4, List.Pairwise (· < ·) g.getAvailableMoves ∧
      (∀ m : Int, m ∈ g.getAvailableMoves ↔
        ∃ c : Fin 7, ((c : Nat) : Int) = m ∧ g.board 0 c = EMPTY)) ∧
    ((∀ (k : Fin 7) (r : Fin 6),
        ((Connect4.makeMove 0)^[(k : Nat)] initialC4).board r 0 ≠ EMPTY ↔
          6 - (k : Nat) ≤ (r : Nat)) ∧
      (0 : Int) ∉ ((Connect4.makeMove 0)^[6] initialC4).getAvailableMoves) := by
  refine ⟨fun g c hex => ?_, fun g => ⟨?_, c4_mem_getAvailableMoves g⟩,
    by decide, by decide⟩
  · exact Connect4.makeMove_drop g c hex
  · unfold Connect4.getAvailableMoves
    rw [List.pairwise_map]
    exact ((List.pairwise_lt_finRange 7).filter _).imp (fun hab => by exact_mod_cast hab)

/-- Witness for C7 at the empty board: the drop lands in the bottom row of
column 0. -/
theorem claim7_connect4_gravity_witness :
    (∃ r : Fin 6, initialC4.board r 0 = EMPTY) ∧
    (∃ r₀ : Fin 6, initialC4.board r₀ 0 = EMPTY ∧
      (∀ r', r₀ < r' → initialC4.board r' 0 ≠ EMPTY) ∧
      Connect4.makeMove (((0 : Fin 7) : Nat) : Int) initialC4 =
        ⟨setCell initialC4.board r₀ 0 initialC4.currentPlayer,
          switchPlayer initialC4.currentPlayer⟩) :=
  ⟨by decide, claim7_connect4_gravity.1 initialC4 0 (by decide)⟩

lemma find_eq_none_iff_fin3 : ∀ p : Fin 3 → Bool,
    ((List.finRange 3).find? p = none ↔ ∀ i, p i = false) := by decide

/-- A non-zero `TicTacToe::getWinner` result is the marker of one of the
eight lines it checks. -/
lemma TicTacToe.line_of_getWinner_ne (g : TicTacToe) (h : g.getWinner ≠ 0) :
    ttLine g g.getWinner := by
  unfold getWinner at h ⊢
  rcases hr : (List.finRange 3).find? (fun i =>
      (g.board i 0 != EMPTY) && (g.board i 0 == g.board i 1) &&
        (g.board i 1 == g.board i 2)) with _ | i
  · rw [hr] at h
    rcases hc : (List.finRange 3).find? (fun j =>
        (g.board 0 j != EMPTY) && (g.board 0 j == g.board 1 j) &&
          (g.board 1 j == g.board 2 j)) with _ | j
    · rw [hc] at h
      split_ifs at h ⊢ with h1 h2
      · simp only [Bool.and_eq_true, bne_iff_ne, beq_iff_eq] at h1
        exact ⟨h1.1.1, Or.inr (Or.inr (Or.inl
          ⟨rfl, h1.1.2.symm, (h1.1.2.trans h1.2).symm⟩))⟩
      · simp only [Bool.and_eq_true, bne_iff_ne, beq_iff_eq] at h2
        exact ⟨h2.1.1, Or.inr (Or.inr (Or.inr
          ⟨rfl, h2.1.2.symm, (h2.1.2.trans h2.2).symm⟩))⟩
      · exact absurd (rfl : (0 : Int) = 0) h
    · have hp := List.find?_some hc
      simp only [Bool.and_eq_true, bne_iff_ne, beq_iff_eq] at hp
      exact ⟨hp.1.1, Or.inr (Or.inl
        ⟨j, rfl, hp.1.2.symm, (hp.1.2.trans hp.2).symm⟩)⟩
  · have hp := List.find?_some hr
    simp only [Bool.and_eq_true, bne_iff_ne, beq_iff_eq] at hp
    exact ⟨hp.1.1, Or.inl ⟨i, rfl, hp.1.2.symm, (hp.1.2.trans hp.2).symm⟩⟩

/-- If any of the eight lines is complete, `TicTacToe::getWinner` reports a
winner. -/
lemma TicTacToe.getWinner_ne_zero_of_line (g : TicTacToe) (m : Int)
    (hl : ttLine g m) : g.getWinner ≠ 0 := by
  intro h0
  obtain ⟨hm, hline⟩ := hl
  unfold getWinner at h0
  rcases hr : (List.finRange 3).find? (fun i =>
      (g.board i 0 != EMPTY) && (g.board i 0 == g.board i 1) &&
        (g.board i 1 == g.board i 2)) with _ | i
  · rw [hr] at h0
    rcases hc : (List.finRange 3).find? (fun j =>
        (g.board 0 j != EMPTY) && (g.board 0 j == g.board 1 j) &&
          (g.board 1 j == g.board 2 j)) with _ | j
    · rw [hc] at h0
      have hrows := (find_eq_none_iff_fin3 _).mp hr
      have hcols := (find_eq_none_iff_fin3 _).mp hc
      split_ifs at h0 with h1 h2
      · simp only [Bool.and_eq_true, bne_iff_ne, beq_iff_eq] at h1
        exact h1.1.1 h0
      · simp only [Bool.and_eq_true, bne_iff_ne, beq_iff_eq] at h2
        exact h2.1.1 h0
      · rcases hline with ⟨i, e0, e1, e2⟩ | ⟨j, e0, e1, e2⟩ | ⟨e0, e1, e2⟩ | ⟨e0, e1, e2⟩
        · have hfalse := hrows i
          rw [Bool.eq_false_iff] at hfalse
          refine hfalse ?_
          simp only [Bool.and_eq_true, bne_iff_ne, beq_iff_eq, e0, e1, e2,
            eq_self_iff_true, and_true, true_and]
          exact hm
        · have hfalse := hcols j
          rw [Bool.eq_false_iff] at hfalse
          refine hfalse ?_
          simp only [Bool.and_eq_true, bne_iff_ne, beq_iff_eq, e0, e1, e2,
            eq_self_iff_true, and_true, true_and]
          exact hm
        · refine h1 ?_
          simp only [Bool.and_eq_true, bne_iff_ne, beq_iff_eq, e0, e1, e2,
            eq_self_iff_true, and_true, true_and]
          exact hm
        · refine h2 ?_
          simp only [Bool.and_eq_true, bne_iff_ne, beq_iff_eq, e0, e1, e2,
            eq_self_iff_true, and_true, true_and]
          exact hm
    · rw [hc] at h0
      have hp := List.find?_some hc
      simp only [Bool.and_eq_true, bne_iff_ne, beq_iff_eq] at hp
      exact hp.1.1 h0
  · rw [hr] at h0
    have hp := List.find?_some hr
    simp only [Bool.and_eq_true, bne_iff_ne, beq_iff_eq] at hp
    exact hp.1.1 h0

/-- C9: `TicTacToe::getWinner` is non-zero exactly when one of the 3 rows,
3 columns or 2 diagonals holds three equal non-empty markers, and then it
returns such a line's marker; `isTerminal` holds exactly when a winner
exists or the board is full; the top-row board wins for the player, and the
full drawn board has winner `0` and is terminal. -/
theorem claim9_tictactoe_winner_terminal :
    (∀ g : TicTacToe, g.getWinner = 0 ↔ ¬ ∃ m, ttLine g m) ∧
    (∀ g : TicTacToe, g.getWinner ≠ 0 → ttLine g g.getWinner) ∧
    (∀ g : TicTacToe, g.isTerminal = true ↔
      (g.getWinner ≠ 0 ∨ ∀ i j, g.board i j ≠ EMPTY)) ∧
    TicTacToe.getWinner ⟨topRowBoard, AI⟩ = PLAYER ∧
    (TicTacToe.getWinner ⟨drawBoard, PLAYER⟩ = 0 ∧
      TicTacToe.isTerminal ⟨drawBoard, PLAYER⟩ = true) := by
  refine ⟨fun g => ?_, fun g => TicTacToe.line_of_getWinner_ne g, fun g => ?_,
    by decide, by decide, by decide⟩
  · constructor
    · rintro h0 ⟨m, hm⟩
      exact TicTacToe.getWinner_ne_zero_of_line g m hm h0
    · intro hno
      by_contra hne
      exact hno ⟨g.getWinner, TicTacToe.line_of_getWinner_ne g hne⟩
  · unfold TicTacToe.isTerminal
    simp only [Bool.or_eq_true, bne_iff_ne, List.isEmpty_iff]
    refine or_congr Iff.rfl ?_
    constructor
    · intro he i j hempty
      have hmem : (((i : Nat) * 3 + (j : Nat) : Nat) : Int) ∈ g.getAvailableMoves :=
        (ttt_mem_getAvailableMoves g _).mpr ⟨i, j, rfl, hempty⟩
      rw [he] at hmem
      exact absurd hmem (List.not_mem_nil _)
    · intro hfull
      rw [List.eq_nil_iff_forall_not_mem]
      intro m hmem
      obtain ⟨i, j, _, hempty⟩ := (ttt_mem_getAvailableMoves g m).mp hmem
      exact hfull i j hempty

/-- Witness for C9: the top-row board has a non-zero winner carrying a
complete line. -/
theorem claim9_tictactoe_winner_terminal_witness :
    TicTacToe.getWinner ⟨topRowBoard, AI⟩ ≠ 0 ∧
    ttLine ⟨topRowBoard, AI⟩ (TicTacToe.getWinner ⟨topRowBoard, AI⟩) :=
  ⟨by decide, claim9_tictactoe_winner_terminal.2.1 ⟨topRowBoard, AI⟩ (by decide)⟩

/-- C2: for each variant, on any state whose `currentPlayer` is one of the
two sides (and, for Connect4, whose board satisfies the gravity invariant —
both hold for every reachable state), applying a legal move and undoing it
restores the state exactly, and both `makeMove` and `undoMove` switch
`currentPlayer`. -/
theorem claim2_make_undo_roundtrip :
    (∀ (g : Connect4) (m : Int), validPlayer g.currentPlayer → gravityC4 g →
      m ∈ g.getAvailableMoves →
      Connect4.undoMove m (Connect4.makeMove m g) = g ∧
      (Connect4.makeMove m g).currentPlayer = switchPlayer g.currentPlayer ∧
      (Connect4.undoMove m (Connect4.makeMove m g)).currentPlayer =
        switchPlayer (Connect4.makeMove m g).currentPlayer) ∧
    (∀ (g : TicTacToe) (m : Int), validPlayer g.currentPlayer →
      m ∈ g.getAvailableMoves →
      TicTacToe.undoMove m (TicTacToe.makeMove m g) = g ∧
      (TicTacToe.makeMove m g).currentPlayer = switchPlayer g.currentPlayer ∧
      (TicTacToe.undoMove m (TicTacToe.makeMove m g)).currentPlayer =
        switchPlayer (TicTacToe.makeMove m g).currentPlayer) ∧
    (∀ (g : SticksGame) (m : Int), validPlayer g.currentPlayer →
      m ∈ g.getAvailableMoves →
      SticksGame.undoMove m (SticksGame.makeMove m g) = g ∧
      (SticksGame.makeMove m g).currentPlayer = switchPlayer g.currentPlayer ∧
      (SticksGame.undoMove m (SticksGame.makeMove m g)).currentPlayer =
        switchPlayer (SticksGame.makeMove m g).currentPlayer) := by
  refine ⟨fun g m hp hgrav hmem => ?_, fun g m hp hmem => ?_, fun g m hp _ => ?_⟩
  · obtain ⟨c, rfl, htop⟩ := (c4_mem_getAvailableMoves g _).mp hmem
    have h0 : (0 : Int) ≤ ((c : Nat) : Int) := by positivity
    have h7 : ((c : Nat) : Int) < 7 := by exact_mod_cast c.isLt
    have hfin : (⟨(((c : Nat) : Int)).toNat, by omega⟩ : Fin 7) = c := Fin.ext (by simp)
    obtain ⟨r₀, hemp, habove, heq⟩ := Connect4.makeMove_drop g c ⟨0, htop⟩
    have hq : (List.finRange 6).find?
        (fun row => setCell g.board r₀ c g.currentPlayer row c != EMPTY) = some r₀ := by
      apply (find_eq_some_iff_fin6 _ r₀).mpr
      constructor
      · show (setCell g.board r₀ c g.currentPlayer r₀ c != EMPTY) = true
        simp [setCell, bne_iff_ne, EMPTY, validPlayer_ne_zero hp]
      · intro r' hlt
        have hprev : g.board r' c = EMPTY := by
          by_contra hne
          exact hgrav c r' r₀ (le_of_lt hlt) hne hemp
        have hne' : ¬ r' = r₀ := Fin.ne_of_lt hlt
        simp [setCell, hne', hprev, EMPTY]
    have hundo : Connect4.undoMove ((c : Nat) : Int) (Connect4.makeMove ((c : Nat) : Int) g) =
        ⟨setCell (setCell g.board r₀ c g.currentPlayer) r₀ c EMPTY,
          switchPlayer (switchPlayer g.currentPlayer)⟩ := by
      rw [heq]
      unfold Connect4.undoMove
      rw [dif_pos ⟨h0, h7⟩, hfin, hq]
    refine ⟨?_, by rw [heq], by rw [hundo, heq]⟩
    rw [hundo]
    have hb : setCell (setCell g.board r₀ c g.currentPlayer) r₀ c EMPTY = g.board := by
      funext r' c'
      by_cases hcase : r' = r₀ ∧ c' = c
      · obtain ⟨rfl, rfl⟩ := hcase
        simp [setCell, hemp]
      · simp [setCell, hcase]
    rw [hb, switchPlayer_switchPlayer hp]
  · obtain ⟨i, j, rfl, hcell⟩ := (ttt_mem_getAvailableMoves g _).mp hmem
    have hi := i.isLt
    have hj := j.isLt
    have h9 : 0 ≤ ((((i : Nat) * 3 + (j : Nat) : Nat) : Int)) ∧
        ((((i : Nat) * 3 + (j : Nat) : Nat) : Int)) < 9 := by omega
    have hfi : (⟨((((i : Nat) * 3 + (j : Nat) : Nat) : Int)).toNat / 3, by omega⟩ : Fin 3) = i :=
      Fin.ext (by simp; omega)
    have hfj : (⟨((((i : Nat) * 3 + (j : Nat) : Nat) : Int)).toNat % 3, by omega⟩ : Fin 3) = j :=
      Fin.ext (by simp; omega)
    have heq : TicTacToe.makeMove ((((i : Nat) * 3 + (j : Nat) : Nat) : Int)) g =
        ⟨setCell g.board i j g.currentPlayer, switchPlayer g.currentPlayer⟩ := by
      unfold TicTacToe.makeMove
      rw [dif_pos h9, hfi, hfj, if_pos hcell]
    have hne : ¬ setCell g.board i j g.currentPlayer i j = EMPTY := by
      have hsc : setCell g.board i j g.currentPlayer i j = g.currentPlayer := by
        simp [setCell]
      rw [hsc]
      exact validPlayer_ne_zero hp
    have hundo : TicTacToe.undoMove ((((i : Nat) * 3 + (j : Nat) : Nat) : Int))
        (TicTacToe.makeMove ((((i : Nat) * 3 + (j : Nat) : Nat) : Int)) g) =
        ⟨setCell (setCell g.board i j g.currentPlayer) i j EMPTY,
          switchPlayer (switchPlayer g.currentPlayer)⟩ := by
      rw [heq]
      unfold TicTacToe.undoMove
      rw [dif_pos h9, hfi, hfj, if_neg hne]
    refine ⟨?_, by rw [heq], by rw [hundo, heq]⟩
    rw [hundo]
    have hb : setCell (setCell g.board i j g.currentPlayer) i j EMPTY = g.board := by
      funext r' c'
      by_cases hcase : r' = i ∧ c' = j
      · obtain ⟨rfl, rfl⟩ := hcase
        simp [setCell, hcell]
      · simp [setCell, hcase]
    rw [hb, switchPlayer_switchPlayer hp]
  · refine ⟨?_, rfl, rfl⟩
    unfold SticksGame.undoMove SticksGame.makeMove
    rw [switchPlayer_switchPlayer hp]
    simp

/-- Witness for C2: the first move on each initial game state round-trips. -/
theorem claim2_make_undo_roundtrip_witness :
    (validPlayer initialC4.currentPlayer ∧ gravityC4 initialC4 ∧
      (3 : Int) ∈ initialC4.getAvailableMoves ∧
      Connect4.undoMove 3 (Connect4.makeMove 3 initialC4) = initialC4) ∧
    (validPlayer (TicTacToe.mk emptyTTTBoard PLAYER).currentPlayer ∧
      (4 : Int) ∈ (TicTacToe.mk emptyTTTBoard PLAYER).getAvailableMoves ∧
      TicTacToe.undoMove 4 (TicTacToe.makeMove 4 ⟨emptyTTTBoard, PLAYER⟩) =
        ⟨emptyTTTBoard, PLAYER⟩) ∧
    (validPlayer (SticksGame.mk PLAYER 21).currentPlayer ∧
      (2 : Int) ∈ (SticksGame.mk PLAYER 21).getAvailableMoves ∧
      SticksGame.undoMove 2 (SticksGame.makeMove 2 ⟨PLAYER, 21⟩) = ⟨PLAYER, 21⟩) :=
  ⟨⟨by decide, by decide, by decide,
      (claim2_make_undo_roundtrip.1 initialC4 3 (by decide) (by decide) (by decide)).1⟩,
    ⟨by decide, by decide,
      (claim2_make_undo_roundtrip.2.1 ⟨emptyTTTBoard, PLAYER⟩ 4 (by decide) (by decide)).1⟩,
    ⟨by decide, by decide,
      (claim2_make_undo_roundtrip.2.2 ⟨PLAYER, 21⟩ 2 (by decide) (by decide)).1⟩⟩

/-- The element a successful `find?` returns is the first list element
satisfying the predicate. -/
lemma find?_eq_some_first {α : Type _} (l : List α) (p : α → Bool) (a : α)
    (h : l.find? p = some a) :
    ∃ i : Nat, ∃ hi : i < l.length, l.get ⟨i, hi⟩ = a ∧ p a = true ∧
      ∀ j (hj : j < i), p (l.get ⟨j, Nat.lt_trans hj hi⟩) = false := by
  induction l with
  | nil => simp at h
  | cons x xs ih =>
    rcases hpx : p x with _ | _
    · rw [List.find?_cons, hpx] at h
      obtain ⟨i, hi, hget, hpa, hfirst⟩ := ih h
      refine ⟨i + 1, by simpa using Nat.succ_lt_succ hi, by simpa using hget, hpa, ?_⟩
      intro j hj
      match j with
      | 0 => simpa using hpx
      | j' + 1 => simpa using hfirst j' (by omega)
    · rw [List.find?_cons, hpx] at h
      refine ⟨0, by simp, by simpa using (Option.some_inj.mp h), ?_, ?_⟩
      · rw [← Option.some_inj.mp h]
        exact hpx
      · intro j hj
        exact absurd hj (Nat.not_lt_zero j)

/-- Membership in the `Connect4::getWinner` scan: every cell is visited
with every direction of the table. -/
lemma Connect4.mem_scanOrder (t : Fin 6 × Fin 7 × (Int × Int)) :
    t ∈ scanOrder ↔ t.2.2 ∈ directions := by
  obtain ⟨r, c, d⟩ := t
  simp [scanOrder, List.mem_flatMap]
  aesop

set_option maxRecDepth 4000 in
/-- C8: `Connect4::getWinner` returns `0` exactly when no cell starts a
run of four in any of the four scan directions; a non-zero result is the
marker of the first run in scan order; the scan enumerates the board in
row-major order with the direction table {right, down, down-right,
up-right} innermost; and a run check means the three following cells are
in bounds and repeat the starting marker.  The board with player markers
at (5,0)..(5,3) yields winner `PLAYER`. -/
theorem claim8_connect4_winner_scan :
    (∀ g : Connect4, g.getWinner = 0 ↔
      ∀ (r : Fin 6) (c : Fin 7), ∀ d ∈ Connect4.directions,
        Connect4.runAt g.board r c d = false) ∧
    (∀ g : Connect4, g.getWinner ≠ 0 →
      ∃ i : Nat, ∃ hi : i < Connect4.scanOrder.length,
        Connect4.runAt g.board (Connect4.scanOrder.get ⟨i, hi⟩).1
          (Connect4.scanOrder.get ⟨i, hi⟩).2.1 (Connect4.scanOrder.get ⟨i, hi⟩).2.2 = true ∧
        (∀ j (hj : j < i),
          Connect4.runAt g.board (Connect4.scanOrder.get ⟨j, Nat.lt_trans hj hi⟩).1
            (Connect4.scanOrder.get ⟨j, Nat.lt_trans hj hi⟩).2.1
            (Connect4.scanOrder.get ⟨j, Nat.lt_trans hj hi⟩).2.2 = false) ∧
        g.getWinner = g.board (Connect4.scanOrder.get ⟨i, hi⟩).1
          (Connect4.scanOrder.get ⟨i, hi⟩).2.1) ∧
    (Connect4.scanOrder.length = 168 ∧ ∀ i : Fin 168,
      ∃ hi : (i : Nat) < Connect4.scanOrder.length,
        Connect4.scanOrder.get ⟨(i : Nat), hi⟩ =
          (⟨(i : Nat) / 28, by omega⟩, ⟨((i : Nat) % 28) / 4, by omega⟩,
            Connect4.directions.get ⟨(i : Nat) % 4, by
              simp only [Connect4.directions, List.length_cons, List.length_nil]
              omega⟩)) ∧
    (∀ (b : Fin 6 → Fin 7 → Int) (r : Fin 6) (c : Fin 7) (d : Int × Int),
      Connect4.runAt b r c d = true ↔
        (b r c ≠ 0 ∧ ∀ k : Nat, k < 3 →
          (0 ≤ (r : Int) + ((k : Int) + 1) * d.1 ∧ (r : Int) + ((k : Int) + 1) * d.1 < 6 ∧
            0 ≤ (c : Int) + ((k : Int) + 1) * d.2 ∧ (c : Int) + ((k : Int) + 1) * d.2 < 7) ∧
          getCell b ((r : Int) + ((k : Int) + 1) * d.1) ((c : Int) + ((k : Int) + 1) * d.2) =
            b r c)) ∧
    Connect4.getWinner ⟨bottomRowBoard, AI⟩ = PLAYER := by
  refine ⟨fun g => ?_, fun g hne => ?_, ⟨by decide, by decide⟩, fun b r c d => ?_, by decide⟩
  · constructor
    · intro h0 r c d hd
      unfold Connect4.getWinner at h0
      rcases hfind : Connect4.scanOrder.find?
          (fun t => Connect4.runAt g.board t.1 t.2.1 t.2.2) with _ | t
      · have hall := List.find?_eq_none.mp hfind (r, c, d)
          ((Connect4.mem_scanOrder (r, c, d)).mpr hd)
        simpa using hall
      · exfalso
        rw [hfind] at h0
        have hp := List.find?_some hfind
        unfold Connect4.runAt at hp
        simp only [Bool.and_eq_true, bne_iff_ne] at hp
        exact hp.1 h0
    · intro hall
      unfold Connect4.getWinner
      have hnone : Connect4.scanOrder.find?
          (fun t => Connect4.runAt g.board t.1 t.2.1 t.2.2) = none := by
        apply List.find?_eq_none.mpr
        intro t ht
        have := hall t.1 t.2.1 t.2.2 ((Connect4.mem_scanOrder t).mp ht)
        simp [this]
      rw [hnone]
  · unfold Connect4.getWinner at hne ⊢
    rcases hfind : Connect4.scanOrder.find?
        (fun t => Connect4.runAt g.board t.1 t.2.1 t.2.2) with _ | t
    · rw [hfind] at hne
      exact absurd rfl hne
    · obtain ⟨i, hi, hget, hp, hfirst⟩ := find?_eq_some_first _ _ _ hfind
      refine ⟨i, hi, ?_, ?_, ?_⟩
      · rw [hget]
        exact hp
      · intro j hj
        exact hfirst j hj
      · rw [hfind, hget]
  · unfold Connect4.runAt
    rw [Bool.and_eq_true]
    simp only [List.all_eq_true, List.mem_range, Bool.and_eq_true, decide_eq_true_eq,
      beq_iff_eq, bne_iff_ne]
    constructor
    · rintro ⟨h1, h2⟩
      refine ⟨h1, fun k hk => ?_⟩
      obtain ⟨⟨⟨⟨hb1, hb2⟩, hb3⟩, hb4⟩, hcell⟩ := h2 k hk
      exact ⟨⟨hb1, hb2, hb3, hb4⟩, hcell⟩
    · rintro ⟨h1, h2⟩
      refine ⟨h1, fun k hk => ?_⟩
      obtain ⟨⟨hb1, hb2, hb3, hb4⟩, hcell⟩ := h2 k hk
      exact ⟨⟨⟨⟨hb1, hb2⟩, hb3⟩, hb4⟩, hcell⟩

/-- Witness for C8: the bottom-row board has a non-zero winner produced by
the first run in scan order. -/
theorem claim8_connect4_winner_scan_witness :
    Connect4.getWinner ⟨bottomRowBoard, AI⟩ ≠ 0 ∧
    (∃ i : Nat, ∃ hi : i < Connect4.scanOrder.length,
      Connect4.runAt bottomRowBoard (Connect4.scanOrder.get ⟨i, hi⟩).1
        (Connect4.scanOrder.get ⟨i, hi⟩).2.1 (Connect4.scanOrder.get ⟨i, hi⟩).2.2 = true ∧
      (∀ j (hj : j < i),
        Connect4.runAt bottomRowBoard (Connect4.scanOrder.get ⟨j, Nat.lt_trans hj hi⟩).1
          (Connect4.scanOrder.get ⟨j, Nat.lt_trans hj hi⟩).2.1
          (Connect4.scanOrder.get ⟨j, Nat.lt_trans hj hi⟩).2.2 = false) ∧
      Connect4.getWinner ⟨bottomRowBoard, AI⟩ =
        (Connect4.mk bottomRowBoard AI).board (Connect4.scanOrder.get ⟨i, hi⟩).1
          (Connect4.scanOrder.get ⟨i, hi⟩).2.1) :=
  ⟨by decide, claim8_connect4_winner_scan.2.1 ⟨bottomRowBoard, AI⟩ (by decide)⟩

/-! ## Engine lemmas -/

lemma foldl_max_le (f : Int → Int) (hi : Int) :
    ∀ (l : List Int) (seed : Int), (∀ m ∈ l, f m ≤ hi) → seed ≤ hi →
      l.foldl (fun b m => max b (f m)) seed ≤ hi := by
  intro l
  induction l with
  | nil => intro seed _ hs; simpa using hs
  | cons x xs ih =>
    intro seed hl hs
    rw [List.foldl_cons]
    exact ih _ (fun m hm => hl m (List.mem_cons_of_mem x hm))
      (max_le hs (hl x (List.mem_cons_self x xs)))

lemma le_foldl_max (f : Int → Int) :
    ∀ (l : List Int) (seed : Int), seed ≤ l.foldl (fun b m => max b (f m)) seed := by
  intro l
  induction l with
  | nil => intro seed; simp
  | cons x xs ih =>
    intro seed
    rw [List.foldl_cons]
    exact le_trans (le_max_left seed (f x)) (ih (max seed (f x)))

lemma mem_le_foldl_max (f : Int → Int) :
    ∀ (l : List Int) (seed : Int) (m₀ : Int), m₀ ∈ l →
      f m₀ ≤ l.foldl (fun b m => max b (f m)) seed := by
  intro l
  induction l with
  | nil => intro seed m₀ hm; exact absurd hm (List.not_mem_nil m₀)
  | cons x xs ih =>
    intro seed m₀ hm
    rw [List.foldl_cons]
    rcases List.mem_cons.mp hm with rfl | hm'
    · exact le_trans (le_max_right seed (f m₀)) (le_foldl_max f xs _)
    · exact ih _ m₀ hm'

lemma foldl_min_ge (f : Int → Int) (lo : Int) :
    ∀ (l : List Int) (seed : Int), (∀ m ∈ l, lo ≤ f m) → lo ≤ seed →
      lo ≤ l.foldl (fun b m => min b (f m)) seed := by
  intro l
  induction l with
  | nil => intro seed _ hs; simpa using hs
  | cons x xs ih =>
    intro seed hl hs
    rw [List.foldl_cons]
    exact ih _ (fun m hm => hl m (List.mem_cons_of_mem x hm))
      (le_min hs (hl x (List.mem_cons_self x xs)))

lemma foldl_min_le_seed (f : Int → Int) :
    ∀ (l : List Int) (seed : Int), l.foldl (fun b m => min b (f m)) seed ≤ seed := by
  intro l
  induction l with
  | nil => intro seed; simp
  | cons x xs ih =>
    intro seed
    rw [List.foldl_cons]
    exact le_trans (ih (min seed (f x))) (min_le_left seed (f x))

lemma foldl_min_le_mem (f : Int → Int) :
    ∀ (l : List Int) (seed : Int) (m₀ : Int), m₀ ∈ l →
      l.foldl (fun b m => min b (f m)) seed ≤ f m₀ := by
  intro l
  induction l with
  | nil => intro seed m₀ hm; exact absurd hm (List.not_mem_nil m₀)
  | cons x xs ih =>
    intro seed m₀ hm
    rw [List.foldl_cons]
    rcases List.mem_cons.mp hm with rfl | hm'
    · exact le_trans (foldl_min_le_seed f xs _) (min_le_right seed (f m₀))
    · exact ih _ m₀ hm'

/-- Scores computed by `minMax` stay within the `±10` range of `evaluate`,
provided every non-terminal state offers at least one move (true of all
three games). -/
lemma minMaxAux_bounds {σ : Type} (g : GameI σ)
    (h1 : ∀ s, -10 ≤ g.evaluate s ∧ g.evaluate s ≤ 10)
    (h2 : ∀ s, g.isTerminal s = false → g.getAvailableMoves s ≠ []) :
    ∀ (fuel : Nat) (s : σ) (isMax : Bool),
      -10 ≤ minMaxAux g fuel s isMax ∧ minMaxAux g fuel s isMax ≤ 10 := by
  intro fuel
  induction fuel with
  | zero => intro s isMax; exact h1 s
  | succ fuel ih =>
    intro s isMax
    by_cases ht : g.isTerminal s = true
    · simp only [minMaxAux, ht, if_true]
      exact h1 s
    · have hmoves := h2 s (by simpa using ht)
      obtain ⟨x, xs, hxl⟩ : ∃ x xs, g.getAvailableMoves s = x :: xs := by
        rcases hl : g.getAvailableMoves s with _ | ⟨x, xs⟩
        · exact absurd hl hmoves
        · exact ⟨x, xs, rfl⟩
      cases isMax
      · simp only [minMaxAux, ht, if_false, Bool.false_eq_true, hxl]
        constructor
        · exact foldl_min_ge _ (-10) _ intMax
            (fun m _ => (ih (g.makeMove m s) true).1) (by norm_num [intMax])
        · exact le_trans
            (foldl_min_le_mem _ _ intMax x (List.mem_cons_self x xs))
            (ih (g.makeMove x s) true).2
      · simp only [minMaxAux, ht, if_false, Bool.false_eq_true, hxl]
        constructor
        · exact le_trans (ih (g.makeMove x s) false).1
            (mem_le_foldl_max _ _ intMin x (List.mem_cons_self x xs))
        · exact foldl_max_le _ 10 _ intMin
            (fun m _ => (ih (g.makeMove m s) false).2) (by norm_num [intMin])

/-- `minMax` at a cutoff or terminal node is just `evaluate`. -/
lemma minMax_cutoff {σ : Type} (g : GameI σ) (s : σ) (d : Nat) (isMax : Bool)
    (h : g.maxDepth ≤ d ∨ g.isTerminal s = true) :
    minMax g s d isMax = g.evaluate s := by
  unfold minMax
  rcases h with h | h
  · have hf : g.maxDepth - d = 0 := by omega
    rw [hf]
    rfl
  · rcases hf : g.maxDepth - d with _ | fuel
    · rfl
    · simp only [minMaxAux, h, if_true]

/-- One unfolding of `minMax` below the cutoff at a non-terminal node. -/
lemma minMax_step {σ : Type} (g : GameI σ) (s : σ) (d : Nat) (isMax : Bool)
    (hd : d < g.maxDepth) (ht : g.isTerminal s = false) :
    minMax g s d isMax =
      (g.getAvailableMoves s).foldl
        (fun bestScore move =>
          let score := minMax g (g.makeMove move s) (d + 1) (!isMax)
          if isMax then max bestScore score else min bestScore score)
        (if isMax then intMin else intMax) := by
  unfold minMax
  have hf : g.maxDepth - d = (g.maxDepth - (d + 1)) + 1 := by omega
  rw [hf]
  simp only [minMaxAux, ht, Bool.false_eq_true, if_false]

/-- `SticksGame::evaluate` only produces scores in `[-10, 10]`. -/
lemma sticksEval_bounds :
    ∀ s : SticksGame, -10 ≤ sticksGame.evaluate s ∧ sticksGame.evaluate s ≤ 10 := by
  intro s
  show -10 ≤ SticksGame.evaluate s ∧ SticksGame.evaluate s ≤ 10
  unfold SticksGame.evaluate
  split_ifs <;> norm_num

/-- A non-terminal sticks state always offers move `1`. -/
lemma sticksMoves_nonempty :
    ∀ s : SticksGame, sticksGame.isTerminal s = false → sticksGame.getAvailableMoves s ≠ [] := by
  intro s h hnil
  replace h : SticksGame.isTerminal s = false := h
  unfold SticksGame.isTerminal at h
  rw [decide_eq_false_iff_not] at h
  have h1 : (1 : Int) ∈ SticksGame.getAvailableMoves s :=
    (sticks_mem_getAvailableMoves s 1).mpr ⟨le_refl 1, by norm_num, by omega⟩
  replace hnil : SticksGame.getAvailableMoves s = [] := hnil
  rw [hnil] at h1
  exact absurd h1 (List.not_mem_nil 1)

/-- C3: `minMax` returns `evaluate()` at the per-variant cutoff
(`maxDepth`, which is 6 for Connect4 and 999999 for the other two games)
or at a terminal state; below the cutoff it folds the recursive scores of
the moves in order with `max`/`min` seeded from `INT_MIN`/`INT_MAX`; the
first child always replaces the seed; and for Connect4 every call at depth
`>= 6` is a leaf, so the recursion never explores past 6 plies from the
root. -/
theorem claim3_minmax_engine {σ : Type} (g : GameI σ)
    (h1 : ∀ s, -10 ≤ g.evaluate s ∧ g.evaluate s ≤ 10)
    (h2 : ∀ s, g.isTerminal s = false → g.getAvailableMoves s ≠ []) :
    (∀ (s : σ) (d : Nat) (isMax : Bool), (g.maxDepth ≤ d ∨ g.isTerminal s = true) →
      minMax g s d isMax = g.evaluate s) ∧
    (∀ (s : σ) (d : Nat) (isMax : Bool), d < g.maxDepth → g.isTerminal s = false →
      minMax g s d isMax =
        (g.getAvailableMoves s).foldl
          (fun bestScore move =>
            let score := minMax g (g.makeMove move s) (d + 1) (!isMax)
            if isMax then max bestScore score else min bestScore score)
          (if isMax then intMin else intMax)) ∧
    (∀ (s : σ) (d : Nat) (isMax : Bool) (m : Int) (rest : List Int),
      d < g.maxDepth → g.isTerminal s = false → g.getAvailableMoves s = m :: rest →
      minMax g s d isMax =
        rest.foldl
          (fun bestScore move =>
            let score := minMax g (g.makeMove move s) (d + 1) (!isMax)
            if isMax then max bestScore score else min bestScore score)
          (minMax g (g.makeMove m s) (d + 1) (!isMax))) ∧
    (connect4Game.maxDepth = 6 ∧ ticTacToeGame.maxDepth = 999999 ∧
      sticksGame.maxDepth = 999999 ∧
      ∀ (s : Connect4) (d : Nat) (isMax : Bool), 6 ≤ d →
        minMax connect4Game s d isMax = connect4Game.evaluate s) := by
  refine ⟨fun s d isMax h => minMax_cutoff g s d isMax h,
    fun s d isMax hd ht => minMax_step g s d isMax hd ht,
    fun s d isMax m rest hd ht hl => ?_,
    rfl, rfl, rfl,
    fun s d isMax h6 => minMax_cutoff connect4Game s d isMax (Or.inl h6)⟩
  rw [minMax_step g s d isMax hd ht, hl, List.foldl_cons]
  congr 1
  have hb := minMaxAux_bounds g h1 h2 (g.maxDepth - (d + 1)) (g.makeMove m s) (!isMax)
  cases isMax
  · show min intMax (minMax g (g.makeMove m s) (d + 1) true) =
      minMax g (g.makeMove m s) (d + 1) true
    exact min_eq_right (le_trans hb.2 (by norm_num [intMax]))
  · show max intMin (minMax g (g.makeMove m s) (d + 1) false) =
      minMax g (g.makeMove m s) (d + 1) false
    exact max_eq_right (le_trans (by norm_num [intMin]) hb.1)

/-- Witness for C3: applied to the sticks game at an exhausted state. -/
theorem claim3_minmax_engine_witness :
    (∀ s : SticksGame, -10 ≤ sticksGame.evaluate s ∧ sticksGame.evaluate s ≤ 10) ∧
    (∀ s : SticksGame, sticksGame.isTerminal s = false →
      sticksGame.getAvailableMoves s ≠ []) ∧
    sticksGame.isTerminal ⟨PLAYER, 0⟩ = true ∧
    minMax sticksGame ⟨PLAYER, 0⟩ 3 true = sticksGame.evaluate ⟨PLAYER, 0⟩ :=
  ⟨sticksEval_bounds, sticksMoves_nonempty, by decide,
    (claim3_minmax_engine sticksGame sticksEval_bounds sticksMoves_nonempty).1
      ⟨PLAYER, 0⟩ 3 true (Or.inr (by decide))⟩

/-- If no move beats the accumulator's score, the `getBestMove` fold keeps
the accumulator. -/
lemma bestFold_const (f : Int → Int) :
    ∀ (l : List Int) (acc : Int × Int), (∀ m ∈ l, f m ≤ acc.1) →
      l.foldl (bestStep f) acc = acc := by
  intro l
  induction l with
  | nil => intro acc _; rfl
  | cons x xs ih =>
    intro acc hle
    rw [List.foldl_cons]
    have hx : ¬ f x > acc.1 := not_lt.mpr (hle x (List.mem_cons_self x xs))
    have hstep : bestStep f acc x = acc := by
      unfold bestStep
      simp only [hx, if_false]
    rw [hstep]
    exact ih acc (fun m hm => hle m (List.mem_cons_of_mem x hm))

/-- The `getBestMove` fold keeps the first element attaining the maximum
score, as soon as some element beats the accumulator. -/
lemma bestFold_argmax (f : Int → Int) :
    ∀ (l : List Int) (acc : Int × Int), (∃ m ∈ l, acc.1 < f m) →
      ∃ i : Nat, ∃ hi : i < l.length,
        l.foldl (bestStep f) acc = (f (l.get ⟨i, hi⟩), l.get ⟨i, hi⟩) ∧
        acc.1 < f (l.get ⟨i, hi⟩) ∧
        (∀ j (hj : j < l.length), f (l.get ⟨j, hj⟩) ≤ f (l.get ⟨i, hi⟩)) ∧
        (∀ j (hj : j < i), f (l.get ⟨j, Nat.lt_trans hj hi⟩) < f (l.get ⟨i, hi⟩)) := by
  intro l
  induction l with
  | nil =>
    rintro acc ⟨m, hm, _⟩
    exact absurd hm (List.not_mem_nil m)
  | cons x xs ih =>
    rintro acc ⟨m, hm, hacc⟩
    rw [List.foldl_cons]
    by_cases hx : f x > acc.1
    · have hstep : bestStep f acc x = (f x, x) := by
        unfold bestStep
        simp only [hx, if_true]
      rw [hstep]
      by_cases hxs : ∃ m' ∈ xs, f x < f m'
      · obtain ⟨i, hi, heq, hgt, hall, hfirst⟩ := ih (f x, x) hxs
        refine ⟨i + 1, Nat.succ_lt_succ hi, by simpa using heq,
          lt_trans hx hgt, ?_, ?_⟩
        · intro j hj
          match j with
          | 0 => simpa using le_of_lt hgt
          | j' + 1 =>
            have hj' : j' < xs.length := Nat.lt_of_succ_lt_succ hj
            simpa using hall j' hj'
        · intro j hj
          match j with
          | 0 => simpa using hgt
          | j' + 1 =>
            have hj' : j' < i := Nat.lt_of_succ_lt_succ hj
            simpa using hfirst j' hj'
      · push_neg at hxs
        have hconst : xs.foldl (bestStep f) (f x, x) = (f x, x) :=
          bestFold_const f xs (f x, x) hxs
        rw [hconst]
        refine ⟨0, Nat.succ_pos xs.length, by simp, hx, ?_,
          fun j hj => absurd hj (Nat.not_lt_zero j)⟩
        intro j hj
        match j with
        | 0 => simp
        | j' + 1 =>
          have hj' : j' < xs.length := Nat.lt_of_succ_lt_succ hj
          simpa using hxs (xs.get ⟨j', hj'⟩) (xs.get_mem j' hj')
    · have hstep : bestStep f acc x = acc := by
        unfold bestStep
        simp only [hx, if_false]
      rw [hstep]
      have hm' : m ∈ xs := by
        rcases List.mem_cons.mp hm with rfl | h
        · exact absurd hacc hx
        · exact h
      obtain ⟨i, hi, heq, hgt, hall, hfirst⟩ := ih acc ⟨m, hm', hacc⟩
      refine ⟨i + 1, Nat.succ_lt_succ hi, by simpa using heq, hgt, ?_, ?_⟩
      · intro j hj
        match j with
        | 0 => simpa using le_trans (not_lt.mp hx) (le_of_lt hgt)
        | j' + 1 =>
          have hj' : j' < xs.length := Nat.lt_of_succ_lt_succ hj
          simpa using hall j' hj'
      · intro j hj
        match j with
        | 0 => simpa using lt_of_le_of_lt (not_lt.mp hx) hgt
        | j' + 1 =>
          have hj' : j' < i := Nat.lt_of_succ_lt_succ hj
          simpa using hfirst j' hj'

/-- C4 counterexample: the claim asserts that in the sticks game at
`remainingSticks = 4` with AI to move every move loses.  In the code,
move 3 leaves the player a single stick which the player is forced to take,
and `evaluate`/`getWinner` then declare the AI the winner: its `minMax`
score is `+10`, not a loss, and `getBestMove` picks it. -/
theorem claim4_getBestMove_counterexample :
    ¬ (∀ m ∈ sticksGame.getAvailableMoves ⟨AI, 4⟩,
        minMax sticksGame (sticksGame.makeMove m ⟨AI, 4⟩) 0 false < 0) := by
  intro h
  have h3 := h 3 (by decide)
  have : minMax sticksGame (sticksGame.makeMove 3 ⟨AI, 4⟩) 0 false = 10 := by decide
  rw [this] at h3
  exact absurd h3 (by norm_num)

/-- C4 (amended): for every state with at least one available move (and an
engine whose `evaluate` stays in `±10` with moves at every non-terminal
state, as all three games satisfy), `getBestMove` returns the first move in
`getAvailableMoves()` order whose `minMax(game, 0, false)` score is
strictly greater than every earlier move's score and not below any later
one — ties keep the earlier move — and that move is an element of
`getAvailableMoves()`.  In the sticks game at `remainingSticks = 4` with AI
to move, moves 1 and 2 score `-10` but move 3 scores `+10` (it wins under
the code's last-mover-loses convention), and `getBestMove` returns 3, a
member of `getAvailableMoves() = [1, 2, 3]`. -/
theorem claim4_getBestMove_first_argmax {σ : Type} (g : GameI σ)
    (h1 : ∀ s, -10 ≤ g.evaluate s ∧ g.evaluate s ≤ 10)
    (h2 : ∀ s, g.isTerminal s = false → g.getAvailableMoves s ≠ [])
    (s : σ) (hne : g.getAvailableMoves s ≠ []) :
    (∃ i : Nat, ∃ hi : i < (g.getAvailableMoves s).length,
      getBestMove g s = (g.getAvailableMoves s).get ⟨i, hi⟩ ∧
      getBestMove g s ∈ g.getAvailableMoves s ∧
      (∀ j (hj : j < (g.getAvailableMoves s).length),
        minMax g (g.makeMove ((g.getAvailableMoves s).get ⟨j, hj⟩) s) 0 false ≤
          minMax g (g.makeMove ((g.getAvailableMoves s).get ⟨i, hi⟩) s) 0 false) ∧
      (∀ j (hj : j < i),
        minMax g (g.makeMove ((g.getAvailableMoves s).get ⟨j, Nat.lt_trans hj hi⟩) s) 0 false <
          minMax g (g.makeMove ((g.getAvailableMoves s).get ⟨i, hi⟩) s) 0 false)) ∧
    (getBestMove sticksGame ⟨AI, 4⟩ = 3 ∧
      (3 : Int) ∈ sticksGame.getAvailableMoves ⟨AI, 4⟩ ∧
      minMax sticksGame (sticksGame.makeMove 1 ⟨AI, 4⟩) 0 false = -10 ∧
      minMax sticksGame (sticksGame.makeMove 2 ⟨AI, 4⟩) 0 false = -10 ∧
      minMax sticksGame (sticksGame.makeMove 3 ⟨AI, 4⟩) 0 false = 10) := by
  refine ⟨?_, by decide, by decide, by decide, by decide, by decide⟩
  obtain ⟨x, xs, hxl⟩ : ∃ x xs, g.getAvailableMoves s = x :: xs := by
    rcases hl : g.getAvailableMoves s with _ | ⟨x, xs⟩
    · exact absurd hl hne
    · exact ⟨x, xs, rfl⟩
  have hex : ∃ m ∈ g.getAvailableMoves s,
      ((intMin, -1) : Int × Int).1 < minMax g (g.makeMove m s) 0 false := by
    refine ⟨x, by rw [hxl]; exact List.mem_cons_self x xs, ?_⟩
    have hb := minMaxAux_bounds g h1 h2 (g.maxDepth - 0) (g.makeMove x s) false
    have : (-2147483648 : Int) < -10 := by norm_num
    exact lt_of_lt_of_le (by norm_num [intMin]) hb.1
  obtain ⟨i, hi, heq, _, hall, hfirst⟩ :=
    bestFold_argmax (fun move => minMax g (g.makeMove move s) 0 false)
      (g.getAvailableMoves s) (intMin, -1) hex
  have hbest : getBestMove g s = (g.getAvailableMoves s).get ⟨i, hi⟩ := by
    unfold getBestMove
    rw [heq]
  exact ⟨i, hi, hbest, hbest ▸ (g.getAvailableMoves s).get_mem i hi, hall, hfirst⟩

/-- Witness for the amended C4 at the sticks state `remainingSticks = 4`. -/
theorem claim4_getBestMove_first_argmax_witness :
    (sticksGame.getAvailableMoves ⟨AI, 4⟩ ≠ []) ∧
    (∃ i : Nat, ∃ hi : i < (sticksGame.getAvailableMoves ⟨AI, 4⟩).length,
      getBestMove sticksGame ⟨AI, 4⟩ = (sticksGame.getAvailableMoves ⟨AI, 4⟩).get ⟨i, hi⟩ ∧
      getBestMove sticksGame ⟨AI, 4⟩ ∈ sticksGame.getAvailableMoves ⟨AI, 4⟩ ∧
      (∀ j (hj : j < (sticksGame.getAvailableMoves ⟨AI, 4⟩).length),
        minMax sticksGame
            (sticksGame.makeMove ((sticksGame.getAvailableMoves ⟨AI, 4⟩).get ⟨j, hj⟩) ⟨AI, 4⟩)
            0 false ≤
          minMax sticksGame
            (sticksGame.makeMove ((sticksGame.getAvailableMoves ⟨AI, 4⟩).get ⟨i, hi⟩) ⟨AI, 4⟩)
            0 false) ∧
      (∀ j (hj : j < i),
        minMax sticksGame
            (sticksGame.makeMove
              ((sticksGame.getAvailableMoves ⟨AI, 4⟩).get ⟨j, Nat.lt_trans hj hi⟩) ⟨AI, 4⟩)
            0 false <
          minMax sticksGame
            (sticksGame.makeMove ((sticksGame.getAvailableMoves ⟨AI, 4⟩).get ⟨i, hi⟩) ⟨AI, 4⟩)
            0 false)) :=
  ⟨by decide,
    (claim4_getBestMove_first_argmax sticksGame sticksEval_bounds sticksMoves_nonempty
      ⟨AI, 4⟩ (by decide)).1⟩
